import Mathlib

/-!
Verification development for the agent-orchestration and stage-gating engine
of the narrative-production assistant (TypeScript repository).

The TypeScript sources are shallowly embedded: pure functions become Lean
functions over `String` / `List Char`; JavaScript strings are modelled by
Lean `String` (a list of unicode scalar chars); JavaScript `number` indices
and the character budgets are modelled by `Nat` / `Int`; JavaScript
`Math.floor(n * ratio)` on the fixed ratio constants (0.2, 0.4, 0.8) is
modelled by exact rational floor, i.e. Nat division; fallible operations
(`JSON.parse`, thrown API errors) are modelled with `Option` / `Except`.
`undefined`/absent values are `Option.none`; truthiness of a string is
non-emptiness.
-/

namespace Spec2Proof

/-! ## Generic string helpers (models of JavaScript string operations) -/

/-- Model of `pat` being an initial run of `s` (used for `String.startsWith`
and as the primitive for substring search). -/
def leadsWith : List Char → List Char → Bool
  | [], _ => true
  | _ :: _, [] => false
  | p :: ps, c :: cs => p = c && leadsWith ps cs

/-- Model of `s.endsWith(pat)`. -/
def trailsWith (pat s : List Char) : Bool :=
  leadsWith pat.reverse s.reverse

/-- Index of the first occurrence of `pat` in `s` (model of
`String.prototype.indexOf`, `none` standing for the JS result `-1`). -/
def findSub (pat : List Char) : List Char → Option Nat
  | [] => if leadsWith pat [] then some 0 else none
  | c :: cs =>
    if leadsWith pat (c :: cs) then some 0
    else (findSub pat cs).map (· + 1)

/-- Index of the last occurrence of `pat` in `s` (model of
`String.prototype.lastIndexOf`). -/
def findSubLast (pat s : List Char) : Option Nat :=
  match findSub pat.reverse s.reverse with
  | none => none
  | some i => some (s.length - pat.length - i)

/-- Model of `s.includes(pat)`. -/
def jsIncludes (s pat : String) : Bool :=
  (findSub pat.data s.data).isSome

/-- Model of JavaScript whitespace as used by `trim` and `\s` (the inputs of
interest only use ASCII whitespace). -/
def jsWs (c : Char) : Bool := c.isWhitespace

/-- Model of `String.prototype.trim` on a character list. -/
def jsTrimList (s : List Char) : List Char :=
  ((s.dropWhile jsWs).reverse.dropWhile jsWs).reverse

/-- Model of `String.prototype.trim`. -/
def jsTrim (s : String) : String :=
  ⟨jsTrimList s.data⟩

/-- Model of `s.slice(0, k)` for `0 ≤ k`. -/
def strTake (s : String) (k : Nat) : String := ⟨s.data.take k⟩

/-- Model of `s.slice(k)` for `0 ≤ k`. -/
def strDrop (s : String) (k : Nat) : String := ⟨s.data.drop k⟩

theorem leadsWith_iff (p s : List Char) :
    leadsWith p s = true ↔ ∃ t, s = p ++ t := by
  induction p generalizing s with
  | nil => simp [leadsWith]
  | cons a as ih =>
    cases s with
    | nil => simp [leadsWith]
    | cons b bs =>
      simp only [leadsWith, Bool.and_eq_true, decide_eq_true_eq, ih,
        List.cons_append, List.cons.injEq]
      constructor
      · rintro ⟨rfl, t, rfl⟩; exact ⟨t, rfl, rfl⟩
      · rintro ⟨t, rfl, rfl⟩; exact ⟨rfl, t, rfl⟩

theorem findSub_isSome_iff (p s : List Char) :
    (findSub p s).isSome = true ↔ ∃ a b, s = a ++ p ++ b := by
  induction s with
  | nil =>
    cases p with
    | nil =>
      simp only [findSub, leadsWith, if_pos, Option.isSome_some, true_iff]
      exact ⟨[], [], rfl⟩
    | cons a as =>
      simp only [findSub, leadsWith, if_neg, Bool.false_eq_true, not_false_iff,
        if_false, Option.isSome_none, false_iff, not_exists]
      intro x y h
      simp at h
  | cons c cs ih =>
    simp only [findSub]
    split
    · rename_i hl
      rw [leadsWith_iff] at hl
      obtain ⟨t, ht⟩ := hl
      simp only [Option.isSome_some, true_iff]
      exact ⟨[], t, by simpa using ht⟩
    · rename_i hl
      have hmap : ((findSub p cs).map (· + 1)).isSome = (findSub p cs).isSome := by
        cases findSub p cs <;> rfl
      rw [hmap, ih]
      constructor
      · rintro ⟨a, b, rfl⟩
        exact ⟨c :: a, b, by simp⟩
      · rintro ⟨a, b, hab⟩
        cases a with
        | nil =>
          exfalso
          apply hl
          rw [leadsWith_iff]
          exact ⟨b, by simpa using hab⟩
        | cons a0 as =>
          refine ⟨as, b, ?_⟩
          have := hab
          simp only [List.cons_append] at this
          exact (List.cons.injEq _ _ _ _ ▸ this).2

/-- Substring occurrence is transitive: if `q` occurs inside `p` and `p`
occurs inside `s`, then `q` occurs inside `s`. -/
theorem findSub_trans {q p s : List Char}
    (hqp : (findSub q p).isSome = true) (hps : (findSub p s).isSome = true) :
    (findSub q s).isSome = true := by
  rw [findSub_isSome_iff] at hqp hps ⊢
  obtain ⟨a, b, rfl⟩ := hqp
  obtain ⟨c, d, rfl⟩ := hps
  exact ⟨c ++ a, b ++ d, by simp⟩

/-! ## Stage state machine (src/src/lib/agent-state-machine.ts)

`CreativeStage`, `STAGE_CONFIG.nextStage`, the `FILE_TO_STAGE` reverse map
and `AgentStateMachine.onContentSaved` / `advanceToNext`.  The class keeps
the current stage as mutable state; we embed `onContentSaved` as a function
from the current stage to the new stage together with the returned Bool. -/

inductive Stage where
  | world
  | characters
  | outline
  | production
deriving DecidableEq, Repr

/-- Linear position of a stage in the fixed order used by the spec. -/
def stageIdx : Stage → Nat
  | .world => 0
  | .characters => 1
  | .outline => 2
  | .production => 3

/-- Embedding of `STAGE_CONFIG[stage].nextStage`. -/
def stageNext : Stage → Option Stage
  | .world => some .characters
  | .characters => some .outline
  | .outline => some .production
  | .production => none

/-- Embedding of the `FILE_TO_STAGE` record (JS object lookup yielding
`undefined` for absent keys). -/
def fileToStage (targetFile : String) : Option Stage :=
  if targetFile = "world.md" then some .world
  else if targetFile = "characters.md" then some .characters
  else if targetFile = "outline.md" then some .outline
  else none

/-- Embedding of `AgentStateMachine.advanceToNext`: the new current stage
together with the event payload; `none` when there is no next stage. -/
def advanceToNext (s : Stage) : Stage × Bool :=
  match stageNext s with
  | some n => (n, true)
  | none => (s, false)

/-- Embedding of `AgentStateMachine.onContentSaved(targetFile)`: returns the
new current stage and the Bool result (`true` iff a transition happened). -/
def onContentSaved (s : Stage) (targetFile : String) : Stage × Bool :=
  match fileToStage targetFile with
  | none => (s, false)
  | some stageFromFile =>
    if stageFromFile = s then advanceToNext s
    else (s, false)

/-- Folding a whole sequence of `onContentSaved` calls over the machine. -/
def runSaves (s : Stage) : List String → Stage
  | [] => s
  | f :: fs => runSaves (onContentSaved s f).1 fs

/-! ## Aligner pass/fail decision (AgentSystem.alignerCheck)

The `success` flag computed from the model's free-text report:
`text.includes("检查状态：PASS") || (text.includes("PASS") &&
!text.includes("FAIL") && !text.includes("检查状态：FAIL"))`. -/

/-- Embedding of the pass/fail decision of `AgentSystem.alignerCheck`. -/
def alignerDecide (text : String) : Bool :=
  jsIncludes text "检查状态：PASS" ||
    (jsIncludes text "PASS" && !jsIncludes text "FAIL" &&
      !jsIncludes text "检查状态：FAIL")

/-! ## Episode sequential lock (refreshEpisodeProgress)

The lock loop from `refreshEpisodeProgress` (same loop in
src/src/hooks/useAgentSystem.ts and in the episode-flow hook): over the
episode list sorted by episode number, episode 0 is unlocked and episode i>0
is locked iff the previous episode's status is neither `script_completed`
nor `storyboard_completed`.  Episodes absent from the list simply have no
entry.  We embed the loop as a function from the list of statuses to the
list of `isLocked` flags. -/

inductive EpStatus where
  | notStarted
  | inProgress
  | scriptCompleted
  | storyboardCompleted
deriving DecidableEq, Repr

/-- Embedding of `prev.status === 'script_completed' || prev.status ===
'storyboard_completed'`. -/
def epCompleted (st : EpStatus) : Bool :=
  st = .scriptCompleted || st = .storyboardCompleted

/-- Lock flags for all episodes after the first, given the status of the
directly preceding episode. -/
def lockTail (prev : EpStatus) : List EpStatus → List Bool
  | [] => []
  | x :: xs => (!epCompleted prev) :: lockTail x xs

/-- Embedding of the `isLocked` assignment loop of `refreshEpisodeProgress`:
one flag per existing episode, in sorted order. -/
def lockFlags : List EpStatus → List Bool
  | [] => []
  | s0 :: rest => false :: lockTail s0 rest

theorem lockTail_length (p : EpStatus) (l : List EpStatus) :
    (lockTail p l).length = l.length := by
  induction l generalizing p with
  | nil => rfl
  | cons x xs ih => simp [lockTail, ih]

theorem lockFlags_length (l : List EpStatus) :
    (lockFlags l).length = l.length := by
  cases l with
  | nil => rfl
  | cons s0 rest => simp [lockFlags, lockTail_length]

theorem lockTail_getD (p : EpStatus) (l : List EpStatus) (i : Nat)
    (hi : i < l.length) :
    (lockTail p l).getD i false = !epCompleted ((p :: l).getD i .notStarted) := by
  induction l generalizing p i with
  | nil => simp at hi
  | cons x xs ih =>
    cases i with
    | zero => simp [lockTail]
    | succ j =>
      simp only [lockTail, List.getD_cons_succ]
      exact ih x j (by simpa using hi)

/-! ## Context assembler (src/src/lib/token-utils.ts with constants from
src/src/lib/constants.ts)

`Math.floor(n * ratio)` for the ratio constants 0.4 / 0.2 / 0.8 is modelled
by the exact rational floors `n * 2 / 5`, `n / 5`, `n * 4 / 5` (Nat
division).  The running `budget` variable is a JS number that can go
negative, so it is modelled as `Int`.  The optional `ProjectContext` string
fields are modelled as `String` where the empty string is the falsy case
(`undefined` or `""` behave identically in the `if (field)` guards). -/

structure ProjectContext where
  world : String := ""
  characters : String := ""
  outline : String := ""
  currentFileName : String := ""
  currentFileContent : String := ""

/-- Elision marker inserted by `truncateContent` between head and tail. -/
def elisionMarker : String := "\n\n... [Content Truncated] ...\n\n"

/-- Embedding of `truncateContent(content, maxChars)`: keep the content if it
fits, otherwise first `floor(0.2 * maxChars)` chars and last
`floor(0.8 * maxChars)` chars joined by the elision marker. -/
def truncateContent (content : String) (maxChars : Nat) : String :=
  if content.length ≤ maxChars then content
  else strTake content (maxChars / 5) ++ elisionMarker ++
    strDrop content (content.length - maxChars * 4 / 5)

/-- Truncated current-file content (allotment `floor(0.4 * maxTotalChars)`). -/
def currentFileTrunc (ctx : ProjectContext) (m : Nat) : String :=
  truncateContent ctx.currentFileContent (m * 2 / 5)

/-- Section 1 of `assembleContext`: the currently edited file. -/
def currentFileSection (ctx : ProjectContext) (m : Nat) : String :=
  if ctx.currentFileContent ≠ "" then
    "\n[当前正在编辑的文件 (Current Editing File) - " ++ ctx.currentFileName ++
      "]:\n" ++ currentFileTrunc ctx m ++ "\n(如果内容已完成，请更新此文件)\n"
  else ""

/-- Budget remaining after section 1 (`budget -= currentContent.length`). -/
def budgetAfterCurrent (ctx : ProjectContext) (m : Nat) : Int :=
  (m : Int) -
    (if ctx.currentFileContent ≠ "" then ((currentFileTrunc ctx m).length : Int) else 0)

/-- Truncated outline content (allotment `floor(0.2 * maxTotalChars)`). -/
def outlineTrunc (ctx : ProjectContext) (m : Nat) : String :=
  truncateContent ctx.outline (m / 5)

/-- Guard of section 2: `outline && budget > 0 && currentFileName !== 'outline.md'`. -/
def outlineIncluded (ctx : ProjectContext) (m : Nat) : Prop :=
  ctx.outline ≠ "" ∧ 0 < budgetAfterCurrent ctx m ∧ ctx.currentFileName ≠ "outline.md"

instance (ctx : ProjectContext) (m : Nat) : Decidable (outlineIncluded ctx m) := by
  unfold outlineIncluded; infer_instance

/-- Section 2 of `assembleContext`: the outline. -/
def outlineSection (ctx : ProjectContext) (m : Nat) : String :=
  if outlineIncluded ctx m then
    "\n[故事大纲 (Outline)]:\n" ++ outlineTrunc ctx m ++ "\n"
  else ""

/-- Budget remaining after section 2. -/
def budgetAfterOutline (ctx : ProjectContext) (m : Nat) : Int :=
  budgetAfterCurrent ctx m -
    (if outlineIncluded ctx m then ((outlineTrunc ctx m).length : Int) else 0)

/-- Truncated characters content (allotment `floor(0.2 * maxTotalChars)`). -/
def charactersTrunc (ctx : ProjectContext) (m : Nat) : String :=
  truncateContent ctx.characters (m / 5)

/-- Guard of section 3. -/
def charactersIncluded (ctx : ProjectContext) (m : Nat) : Prop :=
  ctx.characters ≠ "" ∧ 0 < budgetAfterOutline ctx m ∧
    ctx.currentFileName ≠ "characters.md"

instance (ctx : ProjectContext) (m : Nat) : Decidable (charactersIncluded ctx m) := by
  unfold charactersIncluded; infer_instance

/-- Section 3 of `assembleContext`: the character sheets. -/
def charactersSection (ctx : ProjectContext) (m : Nat) : String :=
  if charactersIncluded ctx m then
    "\n[人物小传 (Characters)]:\n" ++ charactersTrunc ctx m ++ "\n"
  else ""

/-- Budget remaining after section 3. -/
def budgetAfterCharacters (ctx : ProjectContext) (m : Nat) : Int :=
  budgetAfterOutline ctx m -
    (if charactersIncluded ctx m then ((charactersTrunc ctx m).length : Int) else 0)

/-- Guard of section 4. -/
def worldIncluded (ctx : ProjectContext) (m : Nat) : Prop :=
  ctx.world ≠ "" ∧ 0 < budgetAfterCharacters ctx m ∧
    ctx.currentFileName ≠ "world.md"

instance (ctx : ProjectContext) (m : Nat) : Decidable (worldIncluded ctx m) := by
  unfold worldIncluded; infer_instance

/-- Section 4 of `assembleContext`: the world document, truncated to the
whole remaining budget (the source passes `budget`, not a fixed ratio). -/
def worldSection (ctx : ProjectContext) (m : Nat) : String :=
  if worldIncluded ctx m then
    "\n[世界观 (World View)]:\n" ++
      truncateContent ctx.world (budgetAfterCharacters ctx m).toNat ++ "\n"
  else ""

/-- Embedding of `assembleContext(context, maxTotalChars)`. -/
def assembleContext (ctx : ProjectContext) (m : Nat) : String :=
  currentFileSection ctx m ++ outlineSection ctx m ++ charactersSection ctx m ++
    worldSection ctx m

theorem truncateContent_length_le (c : String) (m : Nat) :
    (truncateContent c m).length ≤ m + 31 := by
  unfold truncateContent
  split
  · omega
  · rename_i h
    push_neg at h
    have hm : elisionMarker.length = 31 := by decide
    simp only [String.length_append, hm, strTake, strDrop]
    show (c.data.take (m / 5)).length + 31 + (c.data.drop (c.length - m * 4 / 5)).length
      ≤ m + 31
    rw [List.length_take, List.length_drop]
    have hlen : c.data.length = c.length := rfl
    omega

/-- Fixed overhead of the section headers and footers (the current-file
header also embeds the file name, accounted separately). -/
def sectionHeadersLen : Nat :=
  "\n[当前正在编辑的文件 (Current Editing File) - ".length + "]:\n".length +
    "\n(如果内容已完成，请更新此文件)\n".length +
    "\n[故事大纲 (Outline)]:\n".length + "\n".length +
    "\n[人物小传 (Characters)]:\n".length + "\n".length +
    "\n[世界观 (World View)]:\n".length + "\n".length

/-- Total overhead of `assembleContext` beyond the character budget: the
section headers/footers (including the embedded current file name) and up to
four elision markers. -/
def assembleOverhead (ctx : ProjectContext) : Nat :=
  ctx.currentFileName.length + sectionHeadersLen + 4 * elisionMarker.length

theorem currentFileSection_length (ctx : ProjectContext) (m : Nat) :
    (currentFileSection ctx m).length =
      if ctx.currentFileContent ≠ "" then
        "\n[当前正在编辑的文件 (Current Editing File) - ".length +
          ctx.currentFileName.length + "]:\n".length +
          (currentFileTrunc ctx m).length +
          "\n(如果内容已完成，请更新此文件)\n".length
      else 0 := by
  unfold currentFileSection
  split <;> simp [String.length_append]

theorem outlineSection_length (ctx : ProjectContext) (m : Nat) :
    (outlineSection ctx m).length =
      if outlineIncluded ctx m then
        "\n[故事大纲 (Outline)]:\n".length + (outlineTrunc ctx m).length +
          "\n".length
      else 0 := by
  unfold outlineSection
  split <;> simp [String.length_append]

theorem charactersSection_length (ctx : ProjectContext) (m : Nat) :
    (charactersSection ctx m).length =
      if charactersIncluded ctx m then
        "\n[人物小传 (Characters)]:\n".length + (charactersTrunc ctx m).length +
          "\n".length
      else 0 := by
  unfold charactersSection
  split <;> simp [String.length_append]

theorem worldSection_length (ctx : ProjectContext) (m : Nat) :
    (worldSection ctx m).length =
      if worldIncluded ctx m then
        "\n[世界观 (World View)]:\n".length +
          (truncateContent ctx.world (budgetAfterCharacters ctx m).toNat).length +
          "\n".length
      else 0 := by
  unfold worldSection
  split <;> simp [String.length_append]

/-! ## Claim C5 -/

/-- C5 counterexample: a context holding only a 50-character world document.
With budget 50 the world fits exactly; with the smaller budget 49 it is
truncated to head + elision marker + tail, which is longer.  So reducing
`maxChars` can increase the length of the returned string, refuting the
monotonicity half of the claim. -/
theorem assembleContext_not_monotone :
    (assembleContext { world := ⟨List.replicate 50 'a'⟩ } 50).length <
      (assembleContext { world := ⟨List.replicate 50 'a'⟩ } 49).length := by
  decide

/-- C5 (amended): for every project context and budget, the assembled
context string has length at most `maxChars` plus the overhead of the
elision markers and section headers (the current-file header embeds the file
name, so that name counts toward the overhead); consequently any reduced
budget `m' ≤ m` also enjoys its own bound, but the output length is not
monotone in the budget. -/
theorem assembleContext_length_le (ctx : ProjectContext) (m : Nat) :
    (assembleContext ctx m).length ≤ m + assembleOverhead ctx ∧
    (∀ m', m' ≤ m → (assembleContext ctx m').length ≤ m' + assembleOverhead ctx) := by
  suffices h : ∀ k : Nat, (assembleContext ctx k).length ≤ k + assembleOverhead ctx by
    exact ⟨h m, fun m' _ => h m'⟩
  intro k
  have t1 : (currentFileTrunc ctx k).length ≤ k * 2 / 5 + 31 :=
    truncateContent_length_le _ _
  have t2 : (outlineTrunc ctx k).length ≤ k / 5 + 31 :=
    truncateContent_length_le _ _
  have t3 : (charactersTrunc ctx k).length ≤ k / 5 + 31 :=
    truncateContent_length_le _ _
  have t4 : (truncateContent ctx.world (budgetAfterCharacters ctx k).toNat).length ≤
      (budgetAfterCharacters ctx k).toNat + 31 :=
    truncateContent_length_le _ _
  have hb : budgetAfterCharacters ctx k =
      (k : Int) -
        (if ctx.currentFileContent ≠ "" then ((currentFileTrunc ctx k).length : Int) else 0) -
        (if outlineIncluded ctx k then ((outlineTrunc ctx k).length : Int) else 0) -
        (if charactersIncluded ctx k then ((charactersTrunc ctx k).length : Int) else 0) := by
    unfold budgetAfterCharacters budgetAfterOutline budgetAfterCurrent
    ring
  have hdiv : k * 2 / 5 + k / 5 + k / 5 ≤ k := by omega
  unfold assembleContext assembleOverhead sectionHeadersLen
  rw [String.length_append, String.length_append, String.length_append,
    currentFileSection_length, outlineSection_length, charactersSection_length,
    worldSection_length]
  have hm : elisionMarker.length = 31 := by decide
  rw [hm]
  rw [hb] at t4
  simp only [hb]
  split_ifs at t4 ⊢ <;> omega

/-- Witness for C5 (amended): the bound evaluated at a concrete context and
budget, including a reduced budget. -/
theorem assembleContext_length_le_witness :
    (assembleContext { world := ⟨List.replicate 50 'a'⟩ } 50).length ≤
      50 + assembleOverhead { world := ⟨List.replicate 50 'a'⟩ } ∧
    (assembleContext { world := ⟨List.replicate 50 'a'⟩ } 49).length ≤
      49 + assembleOverhead { world := ⟨List.replicate 50 'a'⟩ } :=
  ⟨(assembleContext_length_le { world := ⟨List.replicate 50 'a'⟩ } 50).1,
    (assembleContext_length_le { world := ⟨List.replicate 50 'a'⟩ } 50).2 49
      (by decide)⟩

/-! ## Claim C8 -/

set_option maxRecDepth 4000 in
/-- C8 counterexample: the claim says a later-priority section never receives
more than its fixed ratio of `maxChars` when earlier sections underuse their
budgets.  With budget 100, an underused outline ("O1") and a 100-character
world document, the world section receives 128 characters of content — far
above the fixed world ratio `floor(0.2 * 100) = 20` even after adding the
31-character elision marker — because the source passes the whole remaining
budget to the world section. -/
theorem worldSection_reclaims_surplus :
    (worldSection { outline := "O1", world := ⟨List.replicate 100 'a'⟩ } 100).length
        = "\n[世界观 (World View)]:\n".length + 128 + "\n".length ∧
    100 / 5 + elisionMarker.length < 128 := by
  constructor <;> decide

/-- C8 (amended): an oversized section is truncated to the first 20% and last
80% of its allotted budget (not of the content length) joined by the elision
marker; the outline and characters sections never receive more than their
fixed `floor(0.2 * maxChars)` allotment (plus the marker); but the world
section receives the whole remaining budget, which can exceed its nominal
20% share when earlier sections underuse theirs. -/
theorem truncation_policy_and_section_budgets :
    (∀ (c : String) (m : Nat), m < c.length →
      truncateContent c m =
        strTake c (m / 5) ++ elisionMarker ++ strDrop c (c.length - m * 4 / 5) ∧
      (strTake c (m / 5)).length = m / 5 ∧
      (strDrop c (c.length - m * 4 / 5)).length = m * 4 / 5) ∧
    (∀ (ctx : ProjectContext) (m : Nat),
      (outlineTrunc ctx m).length ≤ m / 5 + elisionMarker.length ∧
      (charactersTrunc ctx m).length ≤ m / 5 + elisionMarker.length) ∧
    (∀ (ctx : ProjectContext) (m : Nat),
      (worldSection ctx m).length ≤
        "\n[世界观 (World View)]:\n".length +
          ((budgetAfterCharacters ctx m).toNat + elisionMarker.length) +
          "\n".length) := by
  have hm : elisionMarker.length = 31 := by decide
  refine ⟨?_, ?_, ?_⟩
  · intro c m h
    refine ⟨?_, ?_, ?_⟩
    · unfold truncateContent
      rw [if_neg (by omega)]
    · show (c.data.take (m / 5)).length = m / 5
      rw [List.length_take]
      have : c.data.length = c.length := rfl
      omega
    · show (c.data.drop (c.length - m * 4 / 5)).length = m * 4 / 5
      rw [List.length_drop]
      have : c.data.length = c.length := rfl
      omega
  · intro ctx m
    rw [hm]
    exact ⟨truncateContent_length_le _ _, truncateContent_length_le _ _⟩
  · intro ctx m
    unfold worldSection
    split
    · rw [String.length_append, String.length_append, hm]
      have := truncateContent_length_le ctx.world (budgetAfterCharacters ctx m).toNat
      omega
    · simp

/-- Witness for C8 (amended): the truncation shape at a concrete oversized
content, and the section bounds at a concrete context. -/
theorem truncation_policy_and_section_budgets_witness :
    (truncateContent "abcdef" 5 =
        strTake "abcdef" 1 ++ elisionMarker ++ strDrop "abcdef" 2 ∧
      (strTake "abcdef" 1).length = 1 ∧ (strDrop "abcdef" 2).length = 4) ∧
    (outlineTrunc { outline := "O1" } 100).length ≤ 20 + elisionMarker.length := by
  constructor
  · have h := truncation_policy_and_section_budgets.1 "abcdef" 5 (by decide)
    simpa using h
  · have h := (truncation_policy_and_section_budgets.2.1 { outline := "O1" } 100).1
    simpa using h

/-! ## Streaming partial message extractor (src/src/lib/streaming-json-parser.ts)

`extractPartialMessage` walks the in-progress JSON stream by hand: it strips
a leading/trailing markdown fence, finds the first `{`, finds the
`"message"` key, finds the opening quote of its value, and then copies
characters while honouring escape sequences until an unescaped closing quote
or end of buffer, returning `"Thinking..."` while no content exists. -/

/-- Character copy loop of `extractPartialMessage` (steps 5): copies until an
unescaped `"` or end of buffer, translating the escape sequences
`\n \t \r \" \\` (any other escaped char is copied verbatim). -/
def scanMsgContent : List Char → Bool → List Char
  | [], _ => []
  | c :: cs, true =>
    (match c with
     | 'n' => '\n'
     | 't' => '\t'
     | 'r' => '\r'
     | '"' => '"'
     | '\\' => '\\'
     | other => other) :: scanMsgContent cs false
  | c :: cs, false =>
    if c = '\\' then scanMsgContent cs true
    else if c = '"' then []
    else c :: scanMsgContent cs false

/-- Embedding of `extractPartialMessage(jsonStr)`. -/
def extractPartialMessage (jsonStr : String) : String :=
  if jsonStr = "" then "Thinking..."
  else if (jsTrim jsonStr).length = 0 then "Thinking..."
  else
    let cs0 := (jsTrim jsonStr).data
    match (if leadsWith "```".data cs0 then
            match findSub ['\n'] cs0 with
            | some i => some (cs0.drop (i + 1))
            | none => none
          else some cs0) with
    | none => "Thinking..."
    | some cs1 =>
      let cs2 := if trailsWith "```".data cs1 then jsTrimList (cs1.take (cs1.length - 3))
        else cs1
      match findSub ['{'] cs2 with
      | none => ⟨cs2⟩
      | some jsonStart =>
        let textBefore := jsTrimList (cs2.take jsonStart)
        let jsonPart := cs2.drop jsonStart
        match findSub "\"message\"".data jsonPart with
        | none => if textBefore.length > 0 then ⟨textBefore⟩ else "Thinking..."
        | some msgKey =>
          match findSub ['"'] (jsonPart.drop (msgKey + 9)) with
          | none => "Thinking..."
          | some q =>
            let content := scanMsgContent (jsonPart.drop (msgKey + 9 + q + 1)) false
            if content.length = 0 then "Thinking..." else ⟨content⟩

/-- Concrete streamed JSON document of the C6 scenario. -/
def msgDoc : String := "\x7b\"message\":\"abc\"\x7d"

/-! ## Claim C6 -/

/-- C6 counterexample: the claim says every output is a prefix of the next.
But feeding the strictly-growing prefixes of length 12 and 13 of the
document yields `"Thinking..."` followed by `"a"`, and the placeholder is
not a prefix of `"a"`. -/
theorem extractPartialMessage_placeholder_breaks_chain :
    extractPartialMessage (strTake msgDoc 12) = "Thinking..." ∧
    extractPartialMessage (strTake msgDoc 13) = "a" ∧
    leadsWith "Thinking...".data "a".data = false := by
  refine ⟨by decide, by decide, by decide⟩

/-- C6 (amended): over the strictly-growing prefixes of the document
`{"message":"abc"}`, every output other than the `"Thinking..."` placeholder
is a prefix of every later output, and the final output is exactly `"abc"`.
(The placeholder outputs emitted before any content exists are the only
exception to the claimed prefix chain.) -/
theorem extractPartialMessage_monotone_after_content :
    (∀ i : Nat, i < 18 → ∀ j : Nat, j < 18 → i ≤ j →
      extractPartialMessage (strTake msgDoc i) ≠ "Thinking..." →
      leadsWith (extractPartialMessage (strTake msgDoc i)).data
        (extractPartialMessage (strTake msgDoc j)).data = true) ∧
    extractPartialMessage msgDoc = "abc" := by
  exact ⟨by decide, by decide⟩

/-- Witness for C6 (amended): the prefix relation between the outputs at
stream lengths 13 and 17. -/
theorem extractPartialMessage_monotone_after_content_witness :
    leadsWith (extractPartialMessage (strTake msgDoc 13)).data
      (extractPartialMessage (strTake msgDoc 17)).data = true :=
  extractPartialMessage_monotone_after_content.1 13 (by decide) 17 (by decide)
    (by decide) (by decide)

/-! ## Validate-and-save loop (handleSaveIntent, src/src/hooks/useProjectChat.ts)

The `while (attemptCount < MAX_AUTO_FIX_ATTEMPTS)` loop.  The Aligner and
AutoFixer are external LLM calls; they are modelled as oracles indexed by
the attempt counter: `alignerOk n content` is the pass/fail verdict of the
n-th Aligner call, and `fixer n content` the n-th AutoFixer result, with
`Except.error` modelling a thrown API error (the `catch` branch).  The call
site hard-codes `MAX_AUTO_FIX_ATTEMPTS = 10` while `AGENT_CONSTANTS
.AUTO_FIX.MAX_RETRIES = 5`; the bound is left as a parameter `maxAttempts`.
Persisting the file on the success path is represented by `saved = true`;
the model additionally counts the Aligner and AutoFixer invocations. -/

structure SaveRes where
  saved : Bool
  alignerCalls : Nat
  fixerCalls : Nat
  content : String
deriving DecidableEq, Repr

/-- Embedding of the retry loop body of `handleSaveIntent`, by recursion on
the remaining fuel `maxAttempts - attemptCount`. -/
def saveLoopAux (alignerOk : Nat → String → Bool)
    (fixer : Nat → String → Except Unit String) (maxAttempts : Nat) :
    Nat → Nat → String → SaveRes
  | 0, _, content => ⟨false, 0, 0, content⟩
  | fuel + 1, attemptCount, content =>
    if alignerOk (attemptCount + 1) content then ⟨true, 1, 0, content⟩
    else if maxAttempts ≤ attemptCount + 1 then ⟨false, 1, 0, content⟩
    else
      match fixer (attemptCount + 1) content with
      | .error _ => ⟨false, 1, 1, content⟩
      | .ok fixed =>
        if fixed ≠ "" ∧ jsTrim fixed ≠ jsTrim content then
          let r := saveLoopAux alignerOk fixer maxAttempts fuel (attemptCount + 1) fixed
          ⟨r.saved, r.alignerCalls + 1, r.fixerCalls + 1, r.content⟩
        else ⟨false, 1, 1, content⟩

/-- Embedding of the whole retry loop of `handleSaveIntent` starting from
attempt 0 on the extracted candidate. -/
def saveLoop (alignerOk : Nat → String → Bool)
    (fixer : Nat → String → Except Unit String) (maxAttempts : Nat)
    (extracted : String) : SaveRes :=
  saveLoopAux alignerOk fixer maxAttempts maxAttempts 0 extracted

theorem saveLoopAux_bounds (A : Nat → String → Bool)
    (F : Nat → String → Except Unit String) (maxA : Nat) :
    ∀ (fuel ac : Nat) (c : String), maxA = ac + fuel →
      (saveLoopAux A F maxA fuel ac c).alignerCalls ≤ fuel ∧
      (saveLoopAux A F maxA fuel ac c).fixerCalls ≤ fuel - 1 := by
  intro fuel
  induction fuel with
  | zero => intro ac c _; exact ⟨Nat.le_refl _, Nat.zero_le _⟩
  | succ f ih =>
    intro ac c hmax
    unfold saveLoopAux
    split
    · dsimp only; omega
    · split
      · dsimp only; omega
      · split
        · dsimp only; omega
        · rename_i fixed hok
          split
          · dsimp only
            have hr := ih (ac + 1) fixed (by omega)
            omega
          · dsimp only; omega

theorem saveLoopAux_all_fail (A : Nat → String → Bool)
    (F : Nat → String → Except Unit String) (maxA : Nat)
    (hA : ∀ n s, A n s = false) :
    ∀ (fuel ac : Nat) (c : String), (saveLoopAux A F maxA fuel ac c).saved = false := by
  intro fuel
  induction fuel with
  | zero => intro ac c; rfl
  | succ f ih =>
    intro ac c
    unfold saveLoopAux
    rw [hA]
    simp only [Bool.false_eq_true, if_false]
    split
    · rfl
    · split
      · rfl
      · split
        · exact ih _ _
        · rfl

/-! ## Claim C1 -/

/-- C1: for a single save request the loop invokes the Aligner at most N
times and the AutoFixer at most N-1 times (N the retry bound), returns (with
`saved = false`) even when every Aligner check fails, and stops early
reporting failure as soon as an AutoFixer pass returns content whose trimmed
form equals the current candidate. -/
theorem save_loop_bounded_and_early_stop :
    (∀ (A : Nat → String → Bool) (F : Nat → String → Except Unit String)
        (maxA : Nat) (c : String),
      (saveLoop A F maxA c).alignerCalls ≤ maxA ∧
      (saveLoop A F maxA c).fixerCalls ≤ maxA - 1) ∧
    (∀ (A : Nat → String → Bool) (F : Nat → String → Except Unit String)
        (maxA : Nat) (c : String),
      (∀ n s, A n s = false) → (saveLoop A F maxA c).saved = false) ∧
    (∀ (A : Nat → String → Bool) (F : Nat → String → Except Unit String)
        (maxA : Nat) (c g : String),
      A 1 c = false → 2 ≤ maxA → F 1 c = .ok g → jsTrim g = jsTrim c →
      saveLoop A F maxA c = ⟨false, 1, 1, c⟩) := by
  refine ⟨?_, ?_, ?_⟩
  · intro A F maxA c
    exact saveLoopAux_bounds A F maxA maxA 0 c (by omega)
  · intro A F maxA c hA
    exact saveLoopAux_all_fail A F maxA hA maxA 0 c
  · intro A F maxA c g hA hmax hF htrim
    obtain ⟨k, rfl⟩ : ∃ k, maxA = k + 2 := ⟨maxA - 2, by omega⟩
    show saveLoopAux A F (k + 2) (k + 2) 0 c = _
    unfold saveLoopAux
    rw [hA]
    simp only [Bool.false_eq_true, if_false]
    rw [if_neg (by omega), hF]
    simp [htrim]

/-- Witness for C1: a run in which every Aligner check fails and the first
AutoFixer pass is a no-op stops after one Aligner call and one AutoFixer
call without saving, within the bounds. -/
theorem save_loop_bounded_and_early_stop_witness :
    (saveLoop (fun _ _ => false) (fun _ s => .ok s) 10 "hello").alignerCalls ≤ 10 ∧
    (saveLoop (fun _ _ => false) (fun _ s => .ok s) 10 "hello").saved = false ∧
    saveLoop (fun _ _ => false) (fun _ s => .ok s) 10 "hello" =
      ⟨false, 1, 1, "hello"⟩ :=
  ⟨(save_loop_bounded_and_early_stop.1 _ _ 10 "hello").1,
    save_loop_bounded_and_early_stop.2.1 _ _ 10 "hello" (fun _ _ => rfl),
    save_loop_bounded_and_early_stop.2.2 _ _ 10 "hello" "hello" rfl (by omega)
      rfl rfl⟩

/-! ## Idempotent-save flows

Two call sites guard the save with a trim-equality diff against the stored
document:

* `handleSaveIntent` (src/src/hooks/useProjectChat.ts) returns
  `{saved: false}` before any Aligner call; its caller only advances the
  stage machine when `result.saved` is true.
* `handleSendMessage` (src/src/hooks/useAgentSystem.ts, lines 604-639) also
  skips validation, but then runs an auto-advance block: it may still call
  `setCurrentStage(stageMapping[targetFile])` when that mapped stage differs
  from the current stage and the stored file has more than 50 characters. -/

/-- Embedding of `handleSaveIntent` including the initial diff against the
stored document content (`none` = the target file does not exist). -/
def handleSaveIntentRun (alignerOk : Nat → String → Bool)
    (fixer : Nat → String → Except Unit String) (maxAttempts : Nat)
    (stored : Option String) (extracted : String) : SaveRes :=
  match stored with
  | some c =>
    if jsTrim c = jsTrim extracted then ⟨false, 0, 0, extracted⟩
    else saveLoop alignerOk fixer maxAttempts extracted
  | none => saveLoop alignerOk fixer maxAttempts extracted

/-- Stage effect of the `useProjectChat.handleSendMessage` caller: the state
machine's `onContentSaved` runs only on the `result.saved` branch. -/
def stageAfterSaveIntent (s : Stage) (res : SaveRes) (targetFile : String) : Stage :=
  if res.saved then (onContentSaved s targetFile).1 else s

/-- Embedding of `isContentChanged` in `useAgentSystem.handleSendMessage`:
`!currentFile || currentFile.content.trim() !== extractedContent.trim()`. -/
def isContentChanged (stored : Option String) (extracted : String) : Bool :=
  match stored with
  | none => true
  | some c => if jsTrim c = jsTrim extracted then false else true

/-- Embedding of the local `stageMapping` record in the unchanged-content
branch of `useAgentSystem.handleSendMessage`. -/
def stageMappingNext (targetFile : String) : Option Stage :=
  if targetFile = "world.md" then some .characters
  else if targetFile = "characters.md" then some .outline
  else if targetFile = "outline.md" then some .production
  else none

/-- Embedding of the auto-advance block run when the content is unchanged:
`setCurrentStage(nextStage)` fires iff the mapped stage exists, differs from
the current one and the stored file content is longer than 50 characters. -/
def autoAdvanceOnUnchanged (s : Stage) (targetFile : String)
    (stored : Option String) : Stage :=
  match stageMappingNext targetFile with
  | some n =>
    if n ≠ s then
      match stored with
      | some c => if 50 < c.length then n else s
      | none => s
    else s
  | none => s

/-- Embedding of the diff decision of `useAgentSystem.handleSendMessage`:
the first component records whether the flow proceeds to the Aligner
(content changed), the second the current stage after the unchanged-content
branch returns. -/
def sendMessageSaveFlow (s : Stage) (targetFile : String)
    (stored : Option String) (extracted : String) : Bool × Stage :=
  if isContentChanged stored extracted then (true, s)
  else (false, autoAdvanceOnUnchanged s targetFile stored)

/-! ## Claim C3 -/

/-- C3 counterexample: saving trim-identical content for `world.md` while the
current stage is `world` and the stored file has more than 50 characters
does change the current stage (to `characters`) in the
`useAgentSystem.handleSendMessage` flow, refuting the claim that an
idempotent save never emits a stage transition. -/
theorem idempotent_save_can_change_stage :
    sendMessageSaveFlow .world "world.md" (some ⟨List.replicate 60 'a'⟩)
        ⟨List.replicate 60 'a'⟩ = (false, .characters) ∧
    Stage.characters ≠ .world := by
  refine ⟨by decide, by decide⟩

/-- C3 (amended): saving a candidate whose trimmed form equals the stored
content never invokes the Aligner in either flow; the `handleSaveIntent`
flow reports `saved = false` and its caller leaves the stage unchanged; the
`handleSendMessage` flow can still change the stage, but only to the target
file's mapped next stage and only when the stored file content exceeds 50
characters. -/
theorem idempotent_save_skips_validation (A : Nat → String → Bool)
    (F : Nat → String → Except Unit String) (maxA : Nat) (s : Stage)
    (targetFile : String) (c ext : String) (htrim : jsTrim c = jsTrim ext) :
    handleSaveIntentRun A F maxA (some c) ext = ⟨false, 0, 0, ext⟩ ∧
    stageAfterSaveIntent s (handleSaveIntentRun A F maxA (some c) ext) targetFile = s ∧
    (sendMessageSaveFlow s targetFile (some c) ext).1 = false ∧
    ((sendMessageSaveFlow s targetFile (some c) ext).2 ≠ s →
      stageMappingNext targetFile =
          some (sendMessageSaveFlow s targetFile (some c) ext).2 ∧
        50 < c.length) := by
  have h1 : handleSaveIntentRun A F maxA (some c) ext = ⟨false, 0, 0, ext⟩ := by
    simp [handleSaveIntentRun, htrim]
  have hchanged : isContentChanged (some c) ext = false := by
    simp [isContentChanged, htrim]
  have hflow : sendMessageSaveFlow s targetFile (some c) ext =
      (false, autoAdvanceOnUnchanged s targetFile (some c)) := by
    simp [sendMessageSaveFlow, hchanged]
  refine ⟨h1, ?_, ?_, ?_⟩
  · rw [h1]; rfl
  · rw [hflow]
  · rw [hflow]
    intro hne
    dsimp only at hne ⊢
    unfold autoAdvanceOnUnchanged at hne ⊢
    cases hm : stageMappingNext targetFile with
    | none =>
      rw [hm] at hne
      simp at hne
    | some n =>
      rw [hm] at hne
      dsimp only at hne ⊢
      by_cases hns : n = s
      · rw [if_neg (by simp [hns])] at hne
        exact absurd rfl hne
      · rw [if_pos hns] at hne ⊢
        by_cases hlen : 50 < c.length
        · rw [if_pos hlen] at hne ⊢
          exact ⟨rfl, hlen⟩
        · rw [if_neg hlen] at hne
          exact absurd rfl hne

/-- Witness for C3 (amended): the conjunction evaluated at the concrete
idempotent save of a 60-character `world.md` during stage `world`. -/
theorem idempotent_save_skips_validation_witness :
    (sendMessageSaveFlow .world "world.md" (some ⟨List.replicate 60 'a'⟩)
        ⟨List.replicate 60 'a'⟩).1 = false ∧
    stageMappingNext "world.md" =
        some (sendMessageSaveFlow .world "world.md"
          (some ⟨List.replicate 60 'a'⟩) ⟨List.replicate 60 'a'⟩).2 ∧
      50 < (⟨List.replicate 60 'a'⟩ : String).length :=
  ⟨(idempotent_save_skips_validation (fun _ _ => false) (fun _ s => .ok s) 10
      .world "world.md" ⟨List.replicate 60 'a'⟩ ⟨List.replicate 60 'a'⟩ rfl).2.2.1,
    (idempotent_save_skips_validation (fun _ _ => false) (fun _ s => .ok s) 10
      .world "world.md" ⟨List.replicate 60 'a'⟩ ⟨List.replicate 60 'a'⟩ rfl).2.2.2
      (by decide)⟩

/-! ## JSON values and the schema validator (src/src/lib/json-validator.ts)

JavaScript values flowing through `validate` are modelled by `Json`;
`Option Json` distinguishes `undefined` (`none`) from present values, with
`Json.jnull` for `null` (the code treats both alike in its missing-value
check).  Numeric values keep their source lexeme: only their type matters
to the embedded claims.  Objects are association lists in insertion order;
`JSON.parse` keeps the last duplicate key, so lookup prefers the last
binding. -/

inductive Json where
  | jnull
  | jbool (b : Bool)
  | jnum (lexeme : String)
  | jstr (s : String)
  | jarr (elems : List Json)
  | jobj (fields : List (String × Json))
deriving Repr

/-- Model of the JavaScript `typeof` operator on our value type. -/
def jsTypeof : Json → String
  | .jnull => "object"
  | .jbool _ => "boolean"
  | .jnum _ => "number"
  | .jstr _ => "string"
  | .jarr _ => "object"
  | .jobj _ => "object"

/-- Model of property access `obj[key]` on a parsed JSON object: the last
binding wins (duplicate keys in `JSON.parse`), absent keys give `undefined`. -/
def jsGet (fields : List (String × Json)) (key : String) : Option Json :=
  match fields with
  | [] => none
  | (k, v) :: rest =>
    match jsGet rest key with
    | some w => some w
    | none => if k = key then some v else none

/-- Model of JavaScript truthiness for our value type (a numeric lexeme is
falsy iff its mantissa digits are all zero). -/
def jsTruthy : Json → Bool
  | .jnull => false
  | .jbool b => b
  | .jnum lex =>
    !(((lex.data.takeWhile (fun c => c ≠ 'e' ∧ c ≠ 'E')).filter Char.isDigit).all
      (· = '0'))
  | .jstr s => s ≠ ""
  | .jarr _ => true
  | .jobj _ => true

/-- Model of `!isNaN(Number(s))`: the trimmed string is empty (Number('')
is 0) or a JS string numeric literal (signed decimal/Infinity, or an
unsigned 0x/0o/0b radix literal). -/
def digitsNonEmpty (cs : List Char) : Bool :=
  !cs.isEmpty && cs.all Char.isDigit

/-- Exponent part of a decimal literal: empty, or `e`/`E` with optional sign
and digits. -/
def expTail : List Char → Bool
  | [] => true
  | 'e' :: r => match r with
    | '+' :: r2 => digitsNonEmpty r2
    | '-' :: r2 => digitsNonEmpty r2
    | r2 => digitsNonEmpty r2
  | 'E' :: r => match r with
    | '+' :: r2 => digitsNonEmpty r2
    | '-' :: r2 => digitsNonEmpty r2
    | r2 => digitsNonEmpty r2
  | _ => false

/-- Unsigned decimal numeric literal (or Infinity). -/
def decNumeric (u : List Char) : Bool :=
  if u = "Infinity".data then true
  else
    let intPart := u.takeWhile Char.isDigit
    let rest := u.dropWhile Char.isDigit
    match rest with
    | '.' :: r2 =>
      let fracPart := r2.takeWhile Char.isDigit
      let r3 := r2.dropWhile Char.isDigit
      (!intPart.isEmpty || !fracPart.isEmpty) && expTail r3
    | _ => !intPart.isEmpty && expTail rest

/-- Model of the numeric-looking-string test `!isNaN(Number(data))`. -/
def jsStringNumeric (s : String) : Bool :=
  let t := jsTrimList s.data
  if t.isEmpty then true
  else if leadsWith "0x".data t || leadsWith "0X".data t then
    digitsNonEmpty (t.drop 2) ||
      (!(t.drop 2).isEmpty &&
        (t.drop 2).all (fun c => c.isDigit || ('a' ≤ c && c ≤ 'f') ||
          ('A' ≤ c && c ≤ 'F')))
  else if leadsWith "0b".data t || leadsWith "0B".data t then
    !(t.drop 2).isEmpty && (t.drop 2).all (fun c => c = '0' || c = '1')
  else if leadsWith "0o".data t || leadsWith "0O".data t then
    !(t.drop 2).isEmpty && (t.drop 2).all (fun c => '0' ≤ c && c ≤ '7')
  else
    match t with
    | '+' :: r => decNumeric r
    | '-' :: r => decNumeric r
    | r => decNumeric r

/-- Schema `type` tags of the validator. -/
inductive SchemaTy where
  | string
  | number
  | boolean
  | array
  | object
deriving DecidableEq, Repr

/-- String form of a schema type (the `schema.type` literal compared against
`typeof data`). -/
def schemaTyName : SchemaTy → String
  | .string => "string"
  | .number => "number"
  | .boolean => "boolean"
  | .array => "array"
  | .object => "object"

/-- Embedding of the `Schema` interface: `type`, `optional?`, `properties?`
(as an entries list) and `items?`. -/
inductive Schema where
  | mk (ty : SchemaTy) (opt : Bool) (props : List (String × Schema))
      (items : Option Schema)

/-- Schema type accessor. -/
def Schema.ty : Schema → SchemaTy
  | .mk t _ _ _ => t

/-- Schema optional-flag accessor. -/
def Schema.opt : Schema → Bool
  | .mk _ o _ _ => o

mutual

/-- Embedding of `validate(data, schema, path)`.  The code appends
`result.errors` only when `!result.valid`, which is equivalent to appending
unconditionally because every branch returns `valid = errors.isEmpty`
(proved below as part of C10). -/
def validate (data : Option Json) (schema : Schema) (path : String) :
    Bool × List String :=
  match schema with
  | .mk ty opt props items =>
    match data with
    | none =>
      if opt then (true, []) else (false, ["Missing required value at " ++ path])
    | some .jnull =>
      if opt then (true, []) else (false, ["Missing required value at " ++ path])
    | some v =>
      match ty with
      | .array =>
        match v with
        | .jarr l =>
          let errs := match items with
            | none => []
            | some isch => validateElems isch l path 0
          (errs.isEmpty, errs)
        | _ => (false, ["Expected array at " ++ path ++ ", got " ++ jsTypeof v])
      | .object =>
        match v with
        | .jobj fields =>
          let errs := validateProps fields props path
          (errs.isEmpty, errs)
        | _ => (false, ["Expected object at " ++ path ++ ", got " ++ jsTypeof v])
      | t =>
        if jsTypeof v = schemaTyName t then (true, [])
        else
          match t, v with
          | .number, .jstr sv =>
            if jsStringNumeric sv then (true, [])
            else (false, ["Expected " ++ schemaTyName t ++ " at " ++ path ++
              ", got " ++ jsTypeof v])
          | _, _ =>
            (false, ["Expected " ++ schemaTyName t ++ " at " ++ path ++
              ", got " ++ jsTypeof v])
termination_by (sizeOf schema, 0)

/-- Embedding of the `data.forEach((item, index) => …)` loop of the array
branch. -/
def validateElems (isch : Schema) (l : List Json) (path : String) (idx : Nat) :
    List String :=
  match l with
  | [] => []
  | x :: xs =>
    (validate (some x) isch (path ++ "[" ++ toString idx ++ "]")).2 ++
      validateElems isch xs path (idx + 1)
termination_by (sizeOf isch, l.length + 1)

/-- Embedding of the `Object.entries(schema.properties).forEach` loop of the
object branch. -/
def validateProps (fields : List (String × Json))
    (props : List (String × Schema)) (path : String) : List String :=
  match props with
  | [] => []
  | (k, psch) :: rest =>
    (validate (jsGet fields k) psch (path ++ "." ++ k)).2 ++
      validateProps fields rest path
termination_by (sizeOf props, 1)

end

theorem validate_missing (sch : Schema) (path : String) (h : sch.opt = false) :
    validate none sch path = (false, ["Missing required value at " ++ path]) := by
  obtain ⟨ty, opt, props, items⟩ := sch
  simp only [Schema.opt] at h
  subst h
  unfold validate
  rfl

/-! ## Claim C10 -/

/-- C10: the validator always returns a result whose `valid` flag reflects
the error list (absence of validity is reported, never thrown); a missing
required value yields the single path-qualified error; array and object type
mismatches short-circuit with exactly one error; nested errors carry
bracketed (array index) and dotted (object key) extensions of the path; and
a numeric-looking string is accepted for a number-typed shape. -/
theorem validate_results_and_paths :
    (∀ (data : Option Json) (sch : Schema) (path : String),
      (validate data sch path).1 = (validate data sch path).2.isEmpty) ∧
    (∀ (sch : Schema) (path : String), sch.opt = false →
      validate none sch path = (false, ["Missing required value at " ++ path])) ∧
    (∀ (sch : Schema) (path : String) (v : Json), sch.ty = .array →
      (∀ l, v ≠ .jarr l) → v ≠ .jnull →
      validate (some v) sch path =
        (false, ["Expected array at " ++ path ++ ", got " ++ jsTypeof v])) ∧
    (∀ (sch : Schema) (path : String) (v : Json), sch.ty = .object →
      (∀ fs, v ≠ .jobj fs) → v ≠ .jnull →
      validate (some v) sch path =
        (false, ["Expected object at " ++ path ++ ", got " ++ jsTypeof v])) ∧
    (∀ (path k : String) (psch : Schema) (opt : Bool) (items : Option Schema),
      psch.opt = false →
      validate (some (.jobj [])) (.mk .object opt [(k, psch)] items) path =
        (false, ["Missing required value at " ++ (path ++ "." ++ k)])) ∧
    (∀ (path : String) (isch : Schema) (opt : Bool)
        (props : List (String × Schema)),
      isch.opt = false →
      validate (some (.jarr [.jnull])) (.mk .array opt props (some isch)) path =
        (false, ["Missing required value at " ++ (path ++ "[" ++ "0" ++ "]")])) ∧
    (∀ (sv : String) (sch : Schema) (path : String), sch.ty = .number →
      jsStringNumeric sv = true →
      validate (some (.jstr sv)) sch path = (true, [])) := by
  refine ⟨?_, fun sch path h => validate_missing sch path h, ?_, ?_, ?_, ?_, ?_⟩
  · intro data sch path
    obtain ⟨ty, opt, props, items⟩ := sch
    unfold validate
    (repeat' split) <;> rfl
  · intro sch path v hty harr hnull
    obtain ⟨ty, opt, props, items⟩ := sch
    simp only [Schema.ty] at hty
    subst hty
    rcases v with _ | b | lex | s | l | fs
    · exact absurd rfl hnull
    · unfold validate; rfl
    · unfold validate; rfl
    · unfold validate; rfl
    · exact absurd rfl (harr l)
    · unfold validate; rfl
  · intro sch path v hty hobj hnull
    obtain ⟨ty, opt, props, items⟩ := sch
    simp only [Schema.ty] at hty
    subst hty
    rcases v with _ | b | lex | s | l | fs
    · exact absurd rfl hnull
    · unfold validate; rfl
    · unfold validate; rfl
    · unfold validate; rfl
    · unfold validate; rfl
    · exact absurd rfl (hobj fs)
  · intro path k psch opt items h
    unfold validate validateProps jsGet
    dsimp only
    rw [validate_missing psch _ h]
    simp [validateProps]
  · intro path isch opt props h
    have hnull : validate (some Json.jnull) isch (path ++ "[" ++ toString 0 ++ "]") =
        (false, ["Missing required value at " ++ (path ++ "[" ++ toString 0 ++ "]")]) := by
      obtain ⟨ty, o, ps, its⟩ := isch
      simp only [Schema.opt] at h
      subst h
      unfold validate
      rfl
    unfold validate validateElems
    dsimp only
    rw [hnull]
    simp [validateElems, (show (toString 0 : String) = "0" from rfl)]
  · intro sv sch path hty hnum
    obtain ⟨ty, opt, props, items⟩ := sch
    simp only [Schema.ty] at hty
    subst hty
    unfold validate
    dsimp only [jsTypeof, schemaTyName]
    rw [if_neg (by decide : ¬(("string" : String) = "number"))]
    rw [hnum]
    simp

/-- Witness for C10: the validator evaluated on the concrete saveRequest
schema shape of the parser: a missing `targetFile`, a numeric-looking string
for a number shape, and an array mismatch. -/
theorem validate_results_and_paths_witness :
    validate none (.mk .string false [] none) "root" =
      (false, ["Missing required value at root"]) ∧
    validate (some (.jstr "42")) (.mk .number false [] none) "n" = (true, []) ∧
    validate (some (.jstr "x")) (.mk .array false [] none) "a" =
      (false, ["Expected array at a, got string"]) :=
  ⟨validate_results_and_paths.2.1 _ "root" rfl,
    validate_results_and_paths.2.2.2.2.2.2 "42" (.mk .number false [] none) "n" rfl
      (by decide),
    by
      have h := validate_results_and_paths.2.2.1 (.mk .array false [] none) "a"
        (.jstr "x") rfl (fun l => by simp) (by simp)
      simpa using h⟩

/-! ## Model of the host JSON.parse

A standard recursive-descent parser for the JSON grammar over the character
list, with fuel bounded by the input length (ample for the inputs that
matter; exhausted fuel reports a parse error, which `JSON.parse` models as a
thrown `SyntaxError`, here `Except.error`). -/

/-- JSON whitespace accepted between tokens. -/
def jsonWsChar (c : Char) : Bool := c = ' ' || c = '\t' || c = '\n' || c = '\r'

/-- Hexadecimal digit test for string escapes. -/
def isHexDigit (c : Char) : Bool :=
  c.isDigit || ('a' ≤ c && c ≤ 'f') || ('A' ≤ c && c ≤ 'F')

/-- Hexadecimal digit value. -/
def hexVal (c : Char) : Nat :=
  if c.isDigit then c.toNat - '0'.toNat
  else if 'a' ≤ c && c ≤ 'f' then c.toNat - 'a'.toNat + 10
  else if 'A' ≤ c && c ≤ 'F' then c.toNat - 'A'.toNat + 10
  else 0

/-- JSON string literal body (after the opening quote): content up to the
closing quote, decoding escape sequences; fails on an unterminated literal,
a bad escape or a raw control character. -/
def parseStrLit : List Char → Option (List Char × List Char)
  | [] => none
  | '"' :: rest => some ([], rest)
  | '\\' :: rest =>
    match rest with
    | [] => none
    | 'u' :: h1 :: h2 :: h3 :: h4 :: rest3 =>
      if isHexDigit h1 && isHexDigit h2 && isHexDigit h3 && isHexDigit h4 then
        match parseStrLit rest3 with
        | some (s, r) =>
          some (Char.ofNat (((hexVal h1 * 16 + hexVal h2) * 16 + hexVal h3) * 16 +
            hexVal h4) :: s, r)
        | none => none
      else none
    | e :: rest2 =>
      let decoded : Option Char :=
        if e = '"' then some '"'
        else if e = '\\' then some '\\'
        else if e = '/' then some '/'
        else if e = 'b' then some (Char.ofNat 8)
        else if e = 'f' then some (Char.ofNat 12)
        else if e = 'n' then some '\n'
        else if e = 'r' then some '\r'
        else if e = 't' then some '\t'
        else none
      match decoded with
      | some c =>
        match parseStrLit rest2 with
        | some (s, r) => some (c :: s, r)
        | none => none
      | none => none
  | c :: rest =>
    if c.toNat < 32 then none
    else
      match parseStrLit rest with
      | some (s, r) => some (c :: s, r)
      | none => none

/-- JSON number literal: returns the lexeme and the remaining input. -/
def parseNumLex (cs : List Char) : Option (List Char × List Char) :=
  let (sign, r1) : List Char × List Char :=
    match cs with
    | '-' :: r => (['-'], r)
    | r => ([], r)
  let intRes : Option (List Char × List Char) :=
    match r1 with
    | '0' :: r2 => some (['0'], r2)
    | c :: r2 =>
      if c.isDigit then some (c :: r2.takeWhile Char.isDigit, r2.dropWhile Char.isDigit)
      else none
    | [] => none
  match intRes with
  | none => none
  | some (ip, r3) =>
    let (fp, r4) : List Char × List Char :=
      match r3 with
      | '.' :: r5 =>
        if (r5.takeWhile Char.isDigit).isEmpty then ([], r3)
        else ('.' :: r5.takeWhile Char.isDigit, r5.dropWhile Char.isDigit)
      | _ => ([], r3)
    if (match r3 with | '.' :: r5 => (r5.takeWhile Char.isDigit).isEmpty | _ => false) then
      none
    else
      let (ep, r6) : List Char × List Char :=
        match r4 with
        | 'e' :: r7 =>
          match r7 with
          | '+' :: r8 =>
            if (r8.takeWhile Char.isDigit).isEmpty then ([], r4)
            else ('e' :: '+' :: r8.takeWhile Char.isDigit, r8.dropWhile Char.isDigit)
          | '-' :: r8 =>
            if (r8.takeWhile Char.isDigit).isEmpty then ([], r4)
            else ('e' :: '-' :: r8.takeWhile Char.isDigit, r8.dropWhile Char.isDigit)
          | r8 =>
            if (r8.takeWhile Char.isDigit).isEmpty then ([], r4)
            else ('e' :: r8.takeWhile Char.isDigit, r8.dropWhile Char.isDigit)
        | 'E' :: r7 =>
          match r7 with
          | '+' :: r8 =>
            if (r8.takeWhile Char.isDigit).isEmpty then ([], r4)
            else ('E' :: '+' :: r8.takeWhile Char.isDigit, r8.dropWhile Char.isDigit)
          | '-' :: r8 =>
            if (r8.takeWhile Char.isDigit).isEmpty then ([], r4)
            else ('E' :: '-' :: r8.takeWhile Char.isDigit, r8.dropWhile Char.isDigit)
          | r8 =>
            if (r8.takeWhile Char.isDigit).isEmpty then ([], r4)
            else ('E' :: r8.takeWhile Char.isDigit, r8.dropWhile Char.isDigit)
        | _ => ([], r4)
      some (sign ++ ip ++ fp ++ ep, r6)

mutual

/-- JSON value parser (fuel-bounded recursive descent). -/
def parseValue : Nat → List Char → Option (Json × List Char)
  | 0, _ => none
  | f + 1, cs0 =>
    let cs := cs0.dropWhile jsonWsChar
    match cs with
    | 'n' :: rest => if leadsWith "ull".data rest then some (.jnull, rest.drop 3) else none
    | 't' :: rest => if leadsWith "rue".data rest then some (.jbool true, rest.drop 3) else none
    | 'f' :: rest => if leadsWith "alse".data rest then some (.jbool false, rest.drop 4) else none
    | '"' :: rest =>
      match parseStrLit rest with
      | some (s, r) => some (.jstr ⟨s⟩, r)
      | none => none
    | '{' :: rest =>
      let r1 := rest.dropWhile jsonWsChar
      match r1 with
      | '}' :: r2 => some (.jobj [], r2)
      | _ => parseMembers f r1 []
    | '[' :: rest =>
      let r1 := rest.dropWhile jsonWsChar
      match r1 with
      | ']' :: r2 => some (.jarr [], r2)
      | _ => parseElems f r1 []
    | _ =>
      match parseNumLex cs with
      | some (lex, r) => some (.jnum ⟨lex⟩, r)
      | none => none

/-- Object member list (after `{` and leading whitespace, first member not
yet consumed). -/
def parseMembers : Nat → List Char → List (String × Json) →
    Option (Json × List Char)
  | 0, _, _ => none
  | f + 1, cs0, acc =>
    let cs := cs0.dropWhile jsonWsChar
    match cs with
    | '"' :: rest =>
      match parseStrLit rest with
      | some (k, r1) =>
        match r1.dropWhile jsonWsChar with
        | ':' :: r2 =>
          match parseValue f r2 with
          | some (v, r3) =>
            match r3.dropWhile jsonWsChar with
            | ',' :: r4 => parseMembers f r4 (acc ++ [(⟨k⟩, v)])
            | '}' :: r4 => some (.jobj (acc ++ [(⟨k⟩, v)]), r4)
            | _ => none
          | none => none
        | _ => none
      | none => none
    | _ => none

/-- Array element list (after `[` and leading whitespace, first element not
yet consumed). -/
def parseElems : Nat → List Char → List Json → Option (Json × List Char)
  | 0, _, _ => none
  | f + 1, cs, acc =>
    match parseValue f cs with
    | some (v, r1) =>
      match r1.dropWhile jsonWsChar with
      | ',' :: r2 => parseElems f r2 (acc ++ [v])
      | ']' :: r2 => some (.jarr (acc ++ [v]), r2)
      | _ => none
    | none => none

end

/-- Model of `JSON.parse(s)`: parse one value, allow trailing whitespace
only; `Except.error` models the thrown `SyntaxError`. -/
def jsonParse (s : String) : Except Unit Json :=
  match parseValue (s.length + 1) s.data with
  | some (v, rest) =>
    if (rest.dropWhile jsonWsChar).isEmpty then .ok v else .error ()
  | none => .error ()

/-! ## Output recovery (src/src/lib/json-validator.ts `cleanJsonOutput` and
src/src/lib/agent-response-parser.ts)

The regular expressions of the source are modelled by explicit scanning
functions with JavaScript regex semantics (leftmost match, lazy `*?` via
minimal extension, alternation in source order). -/

/-- Model of `text.replace(/```json\n?|\n?```/g, '')`: a left-to-right scan
removing each leftmost match of the alternation. -/
def stripFences : Nat → List Char → List Char
  | 0, cs => cs
  | _, [] => []
  | f + 1, c :: rest =>
    if leadsWith "```json".data (c :: rest) then
      match (c :: rest).drop 7 with
      | '\n' :: r => stripFences f r
      | r => stripFences f r
    else if leadsWith "\n```".data (c :: rest) then
      stripFences f ((c :: rest).drop 4)
    else if leadsWith "```".data (c :: rest) then
      stripFences f ((c :: rest).drop 3)
    else c :: stripFences f rest

/-- Embedding of `cleanJsonOutput(text)`: strip code-fence markers, cut to
the first `{`/`[` and the last `}`/`]`. -/
def cleanJsonOutput (text : String) : String :=
  let cleaned := stripFences text.data.length text.data
  let firstBrace := findSub ['{'] cleaned
  let firstBracket := findSub ['['] cleaned
  let start : Option Nat :=
    match firstBrace, firstBracket with
    | some a, some b => some (min a b)
    | some a, none => some a
    | none, some b => some b
    | none, none => none
  let cleaned2 := match start with
    | some s => cleaned.drop s
    | none => cleaned
  let lastBrace := findSubLast ['}'] cleaned2
  let lastBracket := findSubLast [']'] cleaned2
  let stop : Option Nat :=
    match lastBrace, lastBracket with
    | some a, some b => some (max a b)
    | some a, none => some a
    | none, some b => some b
    | none, none => none
  match stop with
  | some i => ⟨cleaned2.take (i + 1)⟩
  | none => ⟨cleaned2⟩

/-- Tail of the fenced-block regex after the optional `json` tag:
`\s*(\{[\s\S]*?\})\s*``` ` with the lazy group ending at the first `}` that
is followed by `\s*` and a closing fence; returns the group. -/
def fenceGroup : List Char → List Char → Option (List Char)
  | _a, [] => none
  | accRev, c :: rest =>
    if c = '}' && leadsWith "```".data (rest.dropWhile jsWs) then
      some (c :: accRev).reverse
    else fenceGroup (c :: accRev) rest

/-- Attempt of the fenced-block regex with the fence `````
already consumed. -/
def fenceTail (afterFence : List Char) : Option (List Char) :=
  let body := afterFence.dropWhile jsWs
  match body with
  | '{' :: rest => fenceGroup ['{'] rest
  | _ => none

/-- Match attempt of `/```(?:json)?\s*(\{[\s\S]*?\})\s*```/` anchored at the
current position (backtracking over the optional `json`). -/
def fenceMatchAt (cs : List Char) : Option (List Char) :=
  if leadsWith "```".data cs then
    let a := cs.drop 3
    match (if leadsWith "json".data a then fenceTail (a.drop 4) else none) with
    | some g => some g
    | none => fenceTail a
  else none

/-- Leftmost match of the fenced-block regex over the whole text (group 1). -/
def mdJsonBlockMatch : List Char → Option (List Char)
  | [] => none
  | c :: rest =>
    match fenceMatchAt (c :: rest) with
    | some g => some g
    | none => mdJsonBlockMatch rest

/-- Embedding of the brace-depth scan of `extractJsonString`: first `{` at
depth 0 to the matching outermost `}`; the depth counter is a JS number that
can go negative. -/
def braceScan : List Char → Int → Option Nat → Nat → Option (Nat × Nat)
  | [], _, _, _ => none
  | c :: rest, depth, start, i =>
    if c = '{' then
      braceScan rest (depth + 1) (if depth = 0 then some i else start) (i + 1)
    else if c = '}' then
      if depth - 1 = 0 then
        match start with
        | some s => some (s, i)
        | none => braceScan rest (depth - 1) start (i + 1)
      else braceScan rest (depth - 1) start (i + 1)
    else braceScan rest depth start (i + 1)

/-- Embedding of `extractJsonString(text)`: fenced block, then brace scan,
then whole-trimmed-text heuristic. -/
def extractJsonString (text : String) : Option String :=
  match mdJsonBlockMatch text.data with
  | some g => some ⟨g⟩
  | none =>
    match braceScan text.data 0 none 0 with
    | some (s, i) => some ⟨(text.data.take (i + 1)).drop s⟩
    | none =>
      if leadsWith ['{'] (jsTrim text).data && trailsWith ['}'] (jsTrim text).data then
        some text
      else none

/-! ## Final-response parser (src/src/lib/agent-response-parser.ts) -/

/-- Property access on a JS value: named properties exist only on objects in
the cases exercised here (`undefined` otherwise). -/
def jsProp : Json → String → Option Json
  | .jobj fields, k => jsGet fields k
  | _, _ => none

/-- Truthiness-based JS `a || b || dflt` chain over two optional reads. -/
def jsOrChain2 (a b : Option Json) (dflt : Json) : Json :=
  match a with
  | some v =>
    if jsTruthy v then v
    else
      match b with
      | some w => if jsTruthy w then w else dflt
      | none => dflt
  | none =>
    match b with
    | some w => if jsTruthy w then w else dflt
    | none => dflt

/-- Normalized save request (canonical `{targetFile, content, summary?}`),
with fields holding the raw JS values the code put there. -/
structure SaveRequestN where
  targetFile : Json
  content : Json
  summary : Option Json
deriving Repr

/-- Embedding of `normalizeSaveRequest(saveRequest)`: falsy or non-object
input gives `undefined`; field names `targetFile`/`fileName` and
`content`/`fileContent` are normalized with `'' ` fallback. -/
def normalizeSaveRequest (v : Json) : Option SaveRequestN :=
  if !jsTruthy v then none
  else if jsTypeof v ≠ "object" then none
  else some
    { targetFile := jsOrChain2 (jsProp v "targetFile") (jsProp v "fileName") (.jstr "")
      content := jsOrChain2 (jsProp v "content") (jsProp v "fileContent") (.jstr "")
      summary := jsProp v "summary" }

/-- Embedding of the `AgentResponse` interface; `none` models an absent
(`undefined`) field. -/
structure AgentResponse where
  type : String
  message : Option Json
  saveRequest : Option SaveRequestN
  stageComplete : Option Json
  suggestedNextStage : Option Json
deriving Repr

/-- Embedding of `extractMessageFromRaw(rawContent)`. -/
def extractMessageFromRaw (rawContent : String) : Option String :=
  let jsonStr := cleanJsonOutput rawContent
  if jsonStr = "" then none
  else
    match jsonParse jsonStr with
    | .ok parsed =>
      if jsTruthy parsed then
        match jsProp parsed "message" with
        | some (.jstr m) => some m
        | _ => none
      else none
    | .error _ => none

/-- Fragment search of `/"saveRequest"\s*:\s*(\{[\s\S]*?\})/` anchored at the
current position: the lazy group ends at the first `}`. -/
def saveReqFragmentAt (cs : List Char) : Option (List Char) :=
  if leadsWith "\"saveRequest\"".data cs then
    match (cs.drop 13).dropWhile jsWs with
    | ':' :: r2 =>
      match r2.dropWhile jsWs with
      | '{' :: r4 =>
        match findSub ['}'] r4 with
        | some k => some ('{' :: (r4.take k ++ ['}']))
        | none => none
      | _ => none
    | _ => none
  else none

/-- Leftmost match of the saveRequest-fragment regex. -/
def scanSaveReq : List Char → Option (List Char)
  | [] => none
  | c :: rest =>
    match saveReqFragmentAt (c :: rest) with
    | some g => some g
    | none => scanSaveReq rest

/-- Key-value attempt of `/"(targetFile|fileName)"\s*:\s*"([^"]+)"/` anchored
at the current position (group 2). -/
def fileKeyAt (cs : List Char) : Option (List Char) :=
  let tryKey : List Char → Option (List Char) := fun k =>
    if leadsWith k cs then
      match (cs.drop k.length).dropWhile jsWs with
      | ':' :: r2 =>
        match r2.dropWhile jsWs with
        | '"' :: r3 =>
          match findSub ['"'] r3 with
          | some 0 => none
          | some j => some (r3.take j)
          | none => none
        | _ => none
      | _ => none
    else none
  match tryKey "\"targetFile\"".data with
  | some g => some g
  | none => tryKey "\"fileName\"".data

/-- Leftmost match of the file-key regex. -/
def fileKeyScan : List Char → Option (List Char)
  | [] => none
  | c :: rest =>
    match fileKeyAt (c :: rest) with
    | some g => some g
    | none => fileKeyScan rest

/-- Lazy group of `/"(content|fileContent)"\s*:\s*"([\s\S]*?)"\s*(?=\}|,\s*")/`:
content up to the first `"` whose following `\s*` is followed by `}` or
`,\s*"`. -/
def lazyContentEnd : List Char → List Char → Option (List Char)
  | _a, [] => none
  | accRev, '"' :: rest =>
    let t := rest.dropWhile jsWs
    if leadsWith ['}'] t ||
        (leadsWith [','] t && leadsWith ['"'] ((t.drop 1).dropWhile jsWs)) then
      some accRev.reverse
    else lazyContentEnd ('"' :: accRev) rest
  | accRev, c :: rest => lazyContentEnd (c :: accRev) rest

/-- Key-value attempt of the content regex anchored at the current position. -/
def contentKeyAt (cs : List Char) : Option (List Char) :=
  let tryKey : List Char → Option (List Char) := fun k =>
    if leadsWith k cs then
      match (cs.drop k.length).dropWhile jsWs with
      | ':' :: r2 =>
        match r2.dropWhile jsWs with
        | '"' :: r3 => lazyContentEnd [] r3
        | _ => none
      | _ => none
    else none
  match tryKey "\"content\"".data with
  | some g => some g
  | none => tryKey "\"fileContent\"".data

/-- Leftmost match of the content regex. -/
def contentKeyScan : List Char → Option (List Char)
  | [] => none
  | c :: rest =>
    match contentKeyAt (c :: rest) with
    | some g => some g
    | none => contentKeyScan rest

/-- Model of `s.replace(pat, rep)` with a global literal pattern. -/
def replaceAll (pat rep : List Char) : Nat → List Char → List Char
  | 0, cs => cs
  | _, [] => []
  | f + 1, c :: rest =>
    if leadsWith pat (c :: rest) then rep ++ replaceAll pat rep f ((c :: rest).drop pat.length)
    else c :: replaceAll pat rep f rest

/-- Embedding of `extractSaveRequestFromRegex(content)`. -/
def extractSaveRequestFromRegex (content : String) : Option SaveRequestN :=
  match scanSaveReq content.data with
  | none => none
  | some frag =>
    match jsonParse ⟨frag⟩ with
    | .ok parsed => normalizeSaveRequest parsed
    | .error _ =>
      match fileKeyScan frag, contentKeyScan frag with
      | some f, some c =>
        some { targetFile := .jstr ⟨f⟩
               content := .jstr ⟨replaceAll "\\\"".data ['"'] c.length
                 (replaceAll "\\n".data ['\n'] c.length c)⟩
               summary := none }
      | _, _ => none

/-- Test of `/"stageComplete"\s*:\s*true/` anchored at the current position. -/
def stageCompleteTrueAt (cs : List Char) : Bool :=
  leadsWith "\"stageComplete\"".data cs &&
    (match (cs.drop 15).dropWhile jsWs with
     | ':' :: r2 => leadsWith "true".data (r2.dropWhile jsWs)
     | _ => false)

/-- Existence of a match of a position predicate anywhere in the text. -/
def existsAt (p : List Char → Bool) : List Char → Bool
  | [] => p []
  | c :: rest => p (c :: rest) || existsAt p rest

/-- Heuristic of the parser for array-looking cleaned output:
`/^\[\s*("|\d|true|false|null|\{|\[|\])/`. -/
def arrayHeuristic (trimmed : List Char) : Bool :=
  match trimmed with
  | '[' :: r =>
    let t := r.dropWhile jsWs
    match t with
    | '"' :: _ => true
    | '{' :: _ => true
    | '[' :: _ => true
    | ']' :: _ => true
    | c :: _ =>
      c.isDigit || leadsWith "true".data t || leadsWith "false".data t ||
        leadsWith "null".data t
    | [] => false
  | _ => false

/-- Success branch of `parseAgentResponse` from a parsed JSON value: `none`
models the fall-through when neither a string `message` nor a truthy
`saveRequest` is present. -/
def respFromParsed (parsed : Json) : Option AgentResponse :=
  let msgIsString : Bool :=
    match jsProp parsed "message" with
    | some (.jstr _) => true
    | _ => false
  let saveReqTruthy : Bool :=
    match jsProp parsed "saveRequest" with
    | some v => jsTruthy v
    | none => false
  if !jsTruthy parsed || (!msgIsString && !saveReqTruthy) then none
  else
    let responseType : String :=
      match jsProp parsed "type" with
      | some (.jstr t) =>
        if (["chat", "save", "question", "confirm"] : List String).contains t then t
        else "chat"
      | _ => "chat"
    some
      { type := responseType
        message := jsProp parsed "message"
        stageComplete := jsProp parsed "stageComplete"
        suggestedNextStage := jsProp parsed "suggestedNextStage"
        saveRequest :=
          match jsProp parsed "saveRequest" with
          | some v => if jsTruthy v then normalizeSaveRequest v else none
          | none => none }

/-- Embedding of `parseAgentResponse(rawContent)`. -/
def parseAgentResponse (rawContent : String) : AgentResponse :=
  let jsonStr : Option String :=
    match extractJsonString rawContent with
    | some j => some j
    | none =>
      let potentialJson := cleanJsonOutput rawContent
      let trimmed := jsTrim potentialJson
      if leadsWith ['{'] trimmed.data then some potentialJson
      else if leadsWith ['['] trimmed.data && arrayHeuristic trimmed.data then
        some potentialJson
      else none
  let parsedResp : Option AgentResponse :=
    match jsonStr with
    | some js =>
      match jsonParse js with
      | .ok parsed => respFromParsed parsed
      | .error _ => none
    | none => none
  match parsedResp with
  | some r => r
  | none =>
    let fallbackSave := extractSaveRequestFromRegex rawContent
    let stageComplete := existsAt stageCompleteTrueAt rawContent.data
    let fallbackMessage : String :=
      match extractMessageFromRaw rawContent with
      | some m => m
      | none => rawContent
    match fallbackSave with
    | some sr =>
      { type := "save", message := some (.jstr fallbackMessage),
        saveRequest := some sr, stageComplete := some (.jbool stageComplete),
        suggestedNextStage := none }
    | none =>
      { type := "chat", message := some (.jstr rawContent), saveRequest := none,
        stageComplete := none, suggestedNextStage := none }

theorem respFromParsed_type (parsed : Json) (r : AgentResponse)
    (h : respFromParsed parsed = some r) :
    r.type ∈ (["chat", "save", "question", "confirm"] : List String) := by
  unfold respFromParsed at h
  dsimp only at h
  repeat' split at h
  all_goals
    cases h <;> dsimp only <;>
      first
        | exact List.mem_of_elem_eq_true (by assumption)
        | simp

/-- Malformed model output of the C4 scenario (truncated, unterminated). -/
def c4BadInput : String := "Sure! \x7b\"message\": \"Hi"

/-! ## Claim C4 -/

/-- C4: the final-response parser always returns a well-formed response (its
type is one of the four response kinds; in the embedding every throwing
operation is modelled in `Except`/`Option` and handled, so a result always
exists), and on the truncated input `Sure! {"message": "Hi` every structured
extraction path fails and the result is a plain chat response whose message
is exactly the raw input text. -/
theorem parseAgentResponse_total_and_fallback :
    (∀ s : String, (parseAgentResponse s).type ∈
      (["chat", "save", "question", "confirm"] : List String)) ∧
    parseAgentResponse c4BadInput =
      { type := "chat", message := some (.jstr c4BadInput), saveRequest := none,
        stageComplete := none, suggestedNextStage := none } := by
  constructor
  · intro s
    unfold parseAgentResponse
    dsimp only
    split
    · rename_i r hr
      split at hr
      · rename_i js hjs
        split at hr
        · exact respFromParsed_type _ _ hr
        · cases hr
      · cases hr
    · split
      · simp
      · simp
  · rfl

/-- Witness for C4: the universal conjunct applied at the concrete malformed
input. -/
theorem parseAgentResponse_total_and_fallback_witness :
    (parseAgentResponse c4BadInput).type ∈
      (["chat", "save", "question", "confirm"] : List String) :=
  parseAgentResponse_total_and_fallback.1 c4BadInput

/-! ## Claim C2 -/

theorem onContentSaved_step (s : Stage) (f : String) :
    stageIdx s ≤ stageIdx (onContentSaved s f).1 ∧
    ((onContentSaved s f).1 = s ∨ stageIdx (onContentSaved s f).1 = stageIdx s + 1) ∧
    (∀ t, fileToStage f = some t → t ≠ s → onContentSaved s f = (s, false)) := by
  unfold onContentSaved fileToStage
  split_ifs <;> cases s <;> simp_all [advanceToNext, stageNext, stageIdx]

/-- C2: for every sequence of `onContentSaved(targetFile)` calls, the stage
sequence is non-decreasing in the order world → characters → outline →
production, each change steps along exactly one forward edge, and a call
whose targetFile maps to a stage different from the current stage leaves the
stage unchanged and returns false. -/
theorem stage_sequence_monotone_one_edge :
    (∀ (s : Stage) (f : String),
      stageIdx s ≤ stageIdx (onContentSaved s f).1 ∧
      ((onContentSaved s f).1 = s ∨ stageIdx (onContentSaved s f).1 = stageIdx s + 1) ∧
      (∀ t, fileToStage f = some t → t ≠ s → onContentSaved s f = (s, false))) ∧
    (∀ (s : Stage) (fs : List String), stageIdx s ≤ stageIdx (runSaves s fs)) := by
  refine ⟨onContentSaved_step, ?_⟩
  intro s fs
  induction fs generalizing s with
  | nil => exact le_refl _
  | cons f fs ih =>
    calc stageIdx s ≤ stageIdx (onContentSaved s f).1 := (onContentSaved_step s f).1
    _ ≤ stageIdx (runSaves (onContentSaved s f).1 fs) := ih _

/-- Witness for C2: calling the machine at `world` with a past-stage style
mismatch (`characters.md` while current stage is `world`) leaves the stage
unchanged and returns false, while a matching save advances one edge. -/
theorem stage_sequence_monotone_one_edge_witness :
    onContentSaved .world "characters.md" = (.world, false) ∧
    stageIdx .world ≤ stageIdx (onContentSaved .world "world.md").1 ∧
    stageIdx (runSaves .world ["world.md", "world.md"]) = 1 := by
  refine ⟨?_, ?_, by decide⟩
  · exact ((stage_sequence_monotone_one_edge.1 .world "characters.md").2.2
      .characters (by decide) (by decide))
  · exact (stage_sequence_monotone_one_edge.1 .world "world.md").1

/-! ## Claim C7 -/

/-- C7 counterexample: the claim says that for every report text containing
`FAIL` the check reports fail; but a report containing the canonical pass
marker `检查状态：PASS` together with `FAIL` is reported as a pass by the
code (the first disjunct of the check ignores `FAIL`). -/
theorem aligner_pass_despite_fail_marker :
    alignerDecide "检查状态：PASS 但有 FAIL" = true ∧
    jsIncludes "检查状态：PASS 但有 FAIL" "FAIL" = true := by
  constructor <;> decide

/-- C7 (amended): the Aligner check reports pass exactly when the report
contains the canonical marker `检查状态：PASS`, or contains `PASS` and does
not contain `FAIL`.  (The code's extra conjunct `!includes("检查状态：FAIL")`
is redundant because that marker itself contains `FAIL`.) -/
theorem aligner_pass_characterization (t : String) :
    alignerDecide t = true ↔
      (jsIncludes t "检查状态：PASS" = true ∨
        (jsIncludes t "PASS" = true ∧ jsIncludes t "FAIL" = false)) := by
  have hsub : jsIncludes t "检查状态：FAIL" = true → jsIncludes t "FAIL" = true := by
    intro h
    exact findSub_trans (q := "FAIL".data) (p := "检查状态：FAIL".data)
      (by decide) h
  unfold alignerDecide
  cases h1 : jsIncludes t "检查状态：PASS" <;>
    cases h2 : jsIncludes t "PASS" <;>
      cases h3 : jsIncludes t "FAIL" <;>
        cases h4 : jsIncludes t "检查状态：FAIL" <;>
          simp_all

/-- Witness for C7 (amended): a concrete report with the canonical marker and
no FAIL marker passes. -/
theorem aligner_pass_characterization_witness :
    alignerDecide "检查状态：PASS" = true :=
  (aligner_pass_characterization "检查状态：PASS").mpr (Or.inl (by decide))

/-! ## Claim C9 -/

/-- C9: in the derived episode progress list the first episode is always
unlocked, episode i+1 is locked exactly when episode i's status is neither
`script_completed` nor `storyboard_completed`, and an episode absent from
the list gets no lock flag at all (the flag list has exactly one entry per
existing episode). -/
theorem episode_sequential_lock :
    (∀ l : List EpStatus, (lockFlags l).length = l.length) ∧
    (∀ (s0 : EpStatus) (rest : List EpStatus),
      (lockFlags (s0 :: rest)).getD 0 true = false) ∧
    (∀ (l : List EpStatus) (i : Nat), i + 1 < l.length →
      (lockFlags l).getD (i + 1) false
        = !epCompleted (l.getD i .notStarted)) := by
  refine ⟨lockFlags_length, ?_, ?_⟩
  · intro s0 rest; rfl
  · intro l i h
    cases l with
    | nil => simp at h
    | cons s0 rest =>
      have hi : i < rest.length := by simpa using h
      simpa only [lockFlags, List.getD_cons_succ] using lockTail_getD s0 rest i hi

/-- Witness for C9, the spec scenario: episode 1 `script_completed`, episode
2 `not_started`, episode 3 absent.  Both existing episodes are unlocked and
only two lock flags exist. -/
theorem episode_sequential_lock_witness :
    (lockFlags [.scriptCompleted, .notStarted]).length = 2 ∧
    (lockFlags [EpStatus.scriptCompleted, .notStarted]).getD 0 true = false ∧
    (lockFlags [EpStatus.scriptCompleted, .notStarted]).getD 1 false = false := by
  refine ⟨episode_sequential_lock.1 _, episode_sequential_lock.2.1 _ _, ?_⟩
  have := episode_sequential_lock.2.2 [EpStatus.scriptCompleted, .notStarted] 0
    (by decide)
  simpa using this

end Spec2Proof
